import Mathlib

/-!
Shallow embedding of the mbs3 pruning tool: the backup lister with its
name-to-date extraction, the prune orchestrator, and the S3 batch deleter.
Machine dates are modelled as `Option Int` (milliseconds since the Unix
epoch, with `none` standing for the JavaScript Invalid Date whose time
value is NaN).
-/

namespace MBS3

/-- A JavaScript Date value: `some` millis since epoch for a valid date,
`none` for an Invalid Date (NaN time value). -/
abbrev DateVal := Option Int

/-- The comparison `d < cutoff` on JS dates: NaN compares false. -/
def dateLt (d : DateVal) (cutoff : Int) : Bool :=
  match d with
  | some t => t < cutoff
  | none => false

/-- The comparison `d >= cutoff` on JS dates: NaN compares false. -/
def dateGe (d : DateVal) (cutoff : Int) : Bool :=
  match d with
  | some t => cutoff ≤ t
  | none => false

/-- Numeric value of an ASCII digit. -/
def d2n (c : Char) : Nat := c.toNat - 48

/-- ASCII digit test, the JS regex class backslash-d. -/
def isDig (c : Char) : Bool := c.isDigit

def num2 (a b : Char) : Nat := d2n a * 10 + d2n b

def num4 (a b c d : Char) : Nat := ((d2n a * 10 + d2n b) * 10 + d2n c) * 10 + d2n d

/-- Attempt of the full timestamp regex at the head of the character list:
four digits, dash, two digits, dash, two digits, dash-or-T, two digits,
dash-or-colon, two digits, dash-or-colon, two digits. -/
def tsAt (cs : List Char) : Option (Nat × Nat × Nat × Nat × Nat × Nat) :=
  match cs with
  | y1 :: y2 :: y3 :: y4 :: c1 :: m1 :: m2 :: c2 :: e1 :: e2 :: p1 :: h1 :: h2 :: p2 :: n1 :: n2 :: p3 :: s1 :: s2 :: _ =>
    if isDig y1 && isDig y2 && isDig y3 && isDig y4 && c1 == '-' &&
        isDig m1 && isDig m2 && c2 == '-' && isDig e1 && isDig e2 &&
        (p1 == '-' || p1 == 'T') && isDig h1 && isDig h2 &&
        (p2 == '-' || p2 == ':') && isDig n1 && isDig n2 &&
        (p3 == '-' || p3 == ':') && isDig s1 && isDig s2 then
      some (num4 y1 y2 y3 y4, num2 m1 m2, num2 e1 e2, num2 h1 h2, num2 n1 n2, num2 s1 s2)
    else none
  | _ => none

/-- Attempt of the bare date regex at the head of the character list:
four digits, dash, two digits, dash, two digits. -/
def dateAt (cs : List Char) : Option (Nat × Nat × Nat) :=
  match cs with
  | y1 :: y2 :: y3 :: y4 :: c1 :: m1 :: m2 :: c2 :: e1 :: e2 :: _ =>
    if isDig y1 && isDig y2 && isDig y3 && isDig y4 && c1 == '-' &&
        isDig m1 && isDig m2 && c2 == '-' && isDig e1 && isDig e2 then
      some (num4 y1 y2 y3 y4, num2 m1 m2, num2 e1 e2)
    else none
  | _ => none

/-- Leftmost-match regex search: try the pattern at each start index in turn. -/
def scanList {α : Type} (f : List Char → Option α) : List Char → Option α
  | [] => f []
  | c :: cs =>
    match f (c :: cs) with
    | some r => some r
    | none => scanList f cs

/-- Days from 1970-01-01 to year-month-day in the proleptic Gregorian
calendar; a day count beyond the length of the month rolls over into the
following months, as the ECMAScript MakeDay operation does. -/
def daysFromCivil (y m d : Int) : Int :=
  let yAdj := if m ≤ 2 then y - 1 else y
  let era := Int.fdiv yAdj 400
  let yoe := yAdj - era * 400
  let mAdj := if 2 < m then m - 3 else m + 9
  let doy := Int.fdiv (153 * mAdj + 2) 5 + d - 1
  let doe := yoe * 365 + Int.fdiv yoe 4 - Int.fdiv yoe 100 + doy
  era * 146097 + doe - 719468

/-- The JS Date produced from the template literal
YYYY-MM-DDTHH:mm:ssZ: a conforming ISO string (month 01-12, day 01-31,
hour 00-23 or 24:00:00, minute and second 00-59) yields the UTC epoch
time, with day overflow normalized; a non-conforming one yields Invalid
Date. -/
def mkDate (y mo dy h mi s : Nat) : DateVal :=
  if 1 ≤ mo && mo ≤ 12 && 1 ≤ dy && dy ≤ 31 &&
      (h ≤ 23 || (h == 24 && mi == 0 && s == 0)) && mi ≤ 59 && s ≤ 59 then
    some ((daysFromCivil (Int.ofNat y) (Int.ofNat mo) (Int.ofNat dy) * 86400 +
      (Int.ofNat h) * 3600 + (Int.ofNat mi) * 60 + (Int.ofNat s)) * 1000)
  else none

/-- extractDateFromBackupName from s3-delete: first the full timestamp
pattern, then the bare date pattern, else null. The outer Option is the
null case; the inner DateVal may itself be an Invalid Date. -/
def extractDateFromBackupName (name : String) : Option DateVal :=
  match scanList tsAt name.toList with
  | some (y, mo, dy, h, mi, s) => some (mkDate y mo dy h mi s)
  | none =>
    match scanList dateAt name.toList with
    | some (y, mo, dy) => some (mkDate y mo dy 0 0 0)
    | none => none

structure BackupWithDate where
  name : String
  date : DateVal
deriving DecidableEq

/-- Splitting a character list at every slash, keeping empty segments,
as the JS String split method does. -/
def splitSlash : List Char → List (List Char)
  | [] => [[]]
  | c :: rest =>
    if c == '/' then [] :: splitSlash rest
    else
      match splitSlash rest with
      | [] => [[c]]
      | g :: gs => (c :: g) :: gs

/-- Replacing the first occurrence of a pattern by the empty string, as
the JS String replace method with a string pattern does. -/
def replaceFirstAux (pat : List Char) : List Char → List Char
  | [] => []
  | c :: cs =>
    if pat.isPrefixOf (c :: cs) then (c :: cs).drop pat.length
    else c :: replaceFirstAux pat cs

def replaceFirst (s pat : String) : String :=
  String.mk (replaceFirstAux pat.toList s.toList)

/-- The lister appends a slash to the configured path part unless it
already ends with one. -/
def ensureSlash (p : String) : String :=
  if p.toList.getLast? == some '/' then p else p ++ "/"

/-- One iteration of the lister loop: strip the listing path from a
common prefix, take the first nonempty slash-separated segment as the
backup name, extract its date; entries with no name or no recognizable
date pattern are dropped. -/
def backupOfCp (p : String) (cp : String) : Option BackupWithDate :=
  let parts := ((splitSlash (replaceFirst cp p).toList).map String.mk).filter (fun x => x ≠ "")
  let name := parts.headD ""
  if name = "" then none
  else
    match extractDateFromBackupName name with
    | some d => some ⟨name, d⟩
    | none => none

def collectBackups (pfx : String) (cps : List String) : List BackupWithDate :=
  cps.filterMap (backupOfCp (ensureSlash pfx))

/-- The sort comparator subtracts time values; per the ECMAScript
SortCompare operation a NaN comparator result counts as zero, so this
holds exactly when the first date is strictly more recent. -/
def dateAfter (a b : DateVal) : Bool :=
  match a, b with
  | some x, some y => y - x < 0
  | _, _ => false

/-- Stable insertion keeping the most recent date first. -/
def insertByDate (b : BackupWithDate) : List BackupWithDate → List BackupWithDate
  | [] => [b]
  | x :: xs =>
    if dateAfter x.date b.date then x :: insertByDate b xs
    else b :: x :: xs

def sortByDateDesc (l : List BackupWithDate) : List BackupWithDate :=
  l.foldr insertByDate []

/-- listBackupsWithDates from s3-delete, as a function of the configured
path part and of the common prefixes returned by the listing call. -/
def listBackupsWithDates (pfx : String) (cps : List String) : List BackupWithDate :=
  sortByDateDesc (collectBackups pfx cps)

/-- The toDelete set of runPrune. -/
def backupsToDelete (cutoff : Int) (bs : List BackupWithDate) : List BackupWithDate :=
  bs.filter (fun b => dateLt b.date cutoff)

/-- The toKeep set of runPrune. -/
def backupsToKeep (cutoff : Int) (bs : List BackupWithDate) : List BackupWithDate :=
  bs.filter (fun b => dateGe b.date cutoff)

/-- Whitespace skipped by the JS parseInt function. -/
def jsWhitespace (c : Char) : Bool :=
  c == ' ' || c == '\t' || c == '\n' || c == '\r' || c == '\x0b' || c == '\x0c'

/-- Value of the leading digit run; none when there is no leading digit. -/
def digitPfx (cs : List Char) : Option Nat :=
  let ds := cs.takeWhile isDig
  if ds.isEmpty then none
  else some (ds.foldl (fun a c => a * 10 + d2n c) 0)

/-- parseInt with radix 10: skip leading whitespace, optional sign, then
the longest digit run; NaN (here none) when no digit follows. -/
def parseIntJS (s : String) : Option Int :=
  let cs := s.toList.dropWhile jsWhitespace
  match cs with
  | '-' :: rest => (digitPfx rest).map (fun n => -(Int.ofNat n))
  | '+' :: rest => (digitPfx rest).map (fun n => Int.ofNat n)
  | _ => (digitPfx cs).map (fun n => Int.ofNat n)

def DEFAULT_PRUNE_DAYS : Int := 14

/-- getPruneDays from prune: the explicit option wins; else a truthy
PRUNE_DAYS value that parses to a positive integer; else the default,
with a warning (the Bool) when a truthy value failed validation. -/
def getPruneDays (optionDays : Option Int) (envDays : Option String) : Int × Bool :=
  match optionDays with
  | some d => (d, false)
  | none =>
    match envDays with
    | some e =>
      if e ≠ "" then
        match parseIntJS e with
        | some p => if 0 < p then (p, false) else (DEFAULT_PRUNE_DAYS, true)
        | none => (DEFAULT_PRUNE_DAYS, true)
      else (DEFAULT_PRUNE_DAYS, false)
    | none => (DEFAULT_PRUNE_DAYS, false)

/-- Outcome of a prune run over an abstract storage state of type σ:
the process exit code, the backup names for which deleteBackup was
invoked, the toDelete set reported to the user, the success and error
counters of the deletion loop, and the final storage state. -/
structure PruneRun (σ : Type) where
  exitCode : Nat
  deleteCalls : List String
  reported : List BackupWithDate
  deletedCount : Nat
  errorCount : Nat
  finalState : σ
deriving DecidableEq

/-- The sequential deletion loop of runPrune: each backup is attempted
in order against the current state; the oracle returns the new state and
some count on success, none when the attempt threw; an error increments
the error counter and the loop continues with the next backup. -/
def deletionLoop {σ : Type} (del : String → σ → σ × Option Nat) :
    List BackupWithDate → σ → σ × Nat × Nat
  | [], s => (s, 0, 0)
  | b :: rest, s =>
    let res := del b.name s
    let tail := deletionLoop del rest res.1
    match res.2 with
    | some _ => (tail.1, tail.2.1 + 1, tail.2.2)
    | none => (tail.1, tail.2.1, tail.2.2 + 1)

/-- runPrune from prune, after the listing call: early successful exit
when no backups or nothing to delete, dry-run reports without deleting,
otherwise the deletion loop runs over the whole toDelete set and the
exit code is 1 exactly when some deletion failed. -/
def runPrune {σ : Type} (del : String → σ → σ × Option Nat)
    (dryRun : Bool) (cutoff : Int) (backups : List BackupWithDate) (s0 : σ) :
    PruneRun σ :=
  if backups.length = 0 then ⟨0, [], [], 0, 0, s0⟩
  else
    let toDel := backupsToDelete cutoff backups
    if toDel.length = 0 then ⟨0, [], [], 0, 0, s0⟩
    else if dryRun then ⟨0, [], toDel, 0, 0, s0⟩
    else
      let r := deletionLoop del toDel s0
      ⟨if 0 < r.2.2 then 1 else 0, toDel.map (fun b => b.name), toDel, r.2.1, r.2.2, r.1⟩

/-- String prefix test on keys. -/
def strHasPfx (p k : String) : Bool := p.toList.isPrefixOf k.toList

/-- An S3 ListObjectsV2 call without delimiter over a bucket modelled as
its list of keys: the keys having the given string as a prefix. -/
def listKeys (bucket : List String) (p : String) : List String :=
  bucket.filter (fun k => strHasPfx p k)

/-- The storage path deleteBackup lists: the configured path part, a
slash, and the backup name, with no trailing slash. -/
def s3PathOf (pfx backupName : String) : String := pfx ++ "/" ++ backupName

/-- Fuel-driven splitting into batches of at most 1000 keys. -/
def batchChunksGo {α : Type} : Nat → List α → List (List α)
  | _, [] => []
  | 0, _ :: _ => []
  | fuel + 1, c :: cs => ((c :: cs).take 1000) :: batchChunksGo fuel ((c :: cs).drop 1000)

/-- The batching loop of deleteBackup: slices of 1000 keys in order. -/
def batchChunks {α : Type} (l : List α) : List (List α) :=
  batchChunksGo l.length l

inductive DeleteError where
  | noBackupFound
deriving DecidableEq

structure DeleteResult where
  backupName : String
  deletedFiles : Nat
deriving DecidableEq

/-- deleteBackup from s3-delete, as a function of the listing response
contents: throw when the listing is empty, otherwise submit the truthy
keys in batches of at most 1000 and report the total submitted. The
first component is the list of batch-delete calls issued. -/
def deleteBackupRun (backupName : String) (contents : List String) :
    List (List String) × Except DeleteError DeleteResult :=
  if contents.length = 0 then ([], Except.error DeleteError.noBackupFound)
  else
    let objectsToDelete := contents.filter (fun k => k ≠ "")
    if objectsToDelete.length = 0 then ([], Except.ok ⟨backupName, 0⟩)
    else
      let batches := batchChunks objectsToDelete
      (batches, Except.ok ⟨backupName, batches.foldl (fun acc b => acc + b.length) 0⟩)

/-- deleteBackup against a bucket modelled as its key list: the listing
uses the path without a trailing slash. -/
def deleteBackup (bucket : List String) (pfx backupName : String) :
    List (List String) × Except DeleteError DeleteResult :=
  deleteBackupRun backupName (listKeys bucket (s3PathOf pfx backupName))

/-- The S3 part of the configuration record. -/
structure S3Config where
  bucket : String
  pathPart : String
deriving DecidableEq

/-- The bucket and path overrides runPrune receives in its options. -/
structure PruneOverrides where
  bucket : Option String
  pathPart : Option String

/-- loadConfig from config: its signature takes no parameters, so the
bucket comes from S3_BUCKET and the path part from S3_PREFIX or its
default, whatever the caller tried to pass. -/
def loadConfigS3 (envBucket : String) (envPathPart : Option String) : S3Config :=
  ⟨envBucket, envPathPart.getD "backups/mongodb"⟩

/-- The configuration runPrune actually uses: prune passes its bucket
and path overrides to loadConfig, but loadConfig accepts no arguments,
so the overrides are dropped. -/
def configUsedByPrune (envBucket : String) (envPathPart : Option String)
    (_opts : PruneOverrides) : S3Config :=
  loadConfigS3 envBucket envPathPart

/-! Helper lemmas about the batching loop. -/

theorem batchChunksGo_succ {α : Type} (n : Nat) (c : α) (cs : List α) :
    batchChunksGo (n + 1) (c :: cs) =
      ((c :: cs).take 1000) :: batchChunksGo n ((c :: cs).drop 1000) := rfl

theorem batchChunksGo_flatten {α : Type} :
    ∀ (fuel : Nat) (l : List α), l.length ≤ fuel → (batchChunksGo fuel l).flatten = l := by
  intro fuel
  induction fuel with
  | zero =>
    intro l hl
    have hnil : l = [] := List.length_eq_zero.mp (Nat.le_zero.mp hl)
    subst hnil
    rfl
  | succ n ih =>
    intro l hl
    cases l with
    | nil => rfl
    | cons c cs =>
      have hdrop : ((c :: cs).drop 1000).length ≤ n := by
        rw [List.length_drop]
        simp only [List.length_cons] at hl ⊢
        omega
      rw [batchChunksGo_succ, List.flatten_cons, ih _ hdrop, List.take_append_drop]

theorem batchChunksGo_le {α : Type} :
    ∀ (fuel : Nat) (l b : List α), b ∈ batchChunksGo fuel l → b.length ≤ 1000 := by
  intro fuel
  induction fuel with
  | zero =>
    intro l b hb
    cases l <;> simp [batchChunksGo] at hb
  | succ n ih =>
    intro l b hb
    cases l with
    | nil => simp [batchChunksGo] at hb
    | cons c cs =>
      rw [batchChunksGo_succ] at hb
      rcases List.mem_cons.mp hb with h | h
      · subst h
        rw [List.length_take]
        exact Nat.min_le_left _ _
      · exact ih _ _ h

theorem foldl_add_length {α : Type} :
    ∀ (bs : List (List α)) (n : Nat),
      bs.foldl (fun acc b => acc + b.length) n = n + (bs.map List.length).sum := by
  intro bs
  induction bs with
  | nil => intro n; simp
  | cons b rest ih =>
    intro n
    rw [List.foldl_cons, ih, List.map_cons, List.sum_cons]
    omega

theorem batchChunks_total {α : Type} (l : List α) :
    (batchChunks l).foldl (fun acc b => acc + b.length) 0 = l.length := by
  rw [foldl_add_length]
  have hj : (batchChunks l).flatten = l := batchChunksGo_flatten l.length l (le_refl _)
  calc 0 + ((batchChunks l).map List.length).sum
      = ((batchChunks l).map List.length).sum := by omega
    _ = (batchChunks l).flatten.length := (List.length_flatten _).symm
    _ = l.length := by rw [hj]

theorem batchChunks_sizes_1500 {α : Type} (l : List α) (h : l.length = 1500) :
    (batchChunks l).map List.length = [1000, 500] := by
  have h0 : l ≠ [] := by
    intro he
    rw [he] at h
    simp at h
  obtain ⟨c, cs, rfl⟩ := List.exists_cons_of_ne_nil h0
  have hlen2 : ((c :: cs).drop 1000).length = 500 := by
    rw [List.length_drop, h]
  have h1 : (c :: cs).drop 1000 ≠ [] := by
    intro he
    rw [he] at hlen2
    simp at hlen2
  obtain ⟨d, ds, hdds⟩ := List.exists_cons_of_ne_nil h1
  have hdd : ((c :: cs).drop 1000).drop 1000 = [] := by
    apply List.length_eq_zero.mp
    rw [List.length_drop, hlen2]
  have e0 : batchChunks (c :: cs) = batchChunksGo 1500 (c :: cs) := by
    unfold batchChunks
    rw [h]
  have e1 : batchChunksGo 1500 (c :: cs) =
      ((c :: cs).take 1000) :: batchChunksGo 1499 ((c :: cs).drop 1000) := rfl
  have e2 : batchChunksGo 1499 ((c :: cs).drop 1000) =
      (((c :: cs).drop 1000).take 1000) :: batchChunksGo 1498 (((c :: cs).drop 1000).drop 1000) := by
    rw [hdds]
    exact batchChunksGo_succ 1498 d ds
  have e3 : batchChunksGo 1498 (((c :: cs).drop 1000).drop 1000) = [] := by
    rw [hdd]
    rfl
  have t1 : ((c :: cs).take 1000).length = 1000 := by
    rw [List.length_take, h]
    omega
  have t2 : (((c :: cs).drop 1000).take 1000).length = 500 := by
    rw [List.length_take, hlen2]
    omega
  rw [e0, e1, e2, e3, List.map_cons, List.map_cons, List.map_nil, t1, t2]

/-- The branch structure of deleteBackupRun, spelled out. -/
theorem deleteBackupRun_eq (backupName : String) (contents : List String) :
    deleteBackupRun backupName contents =
      if contents.length = 0 then ([], Except.error DeleteError.noBackupFound)
      else
        if (contents.filter (fun k => k ≠ "")).length = 0 then
          ([], Except.ok ⟨backupName, 0⟩)
        else
          (batchChunks (contents.filter (fun k => k ≠ "")),
            Except.ok ⟨backupName,
              (batchChunks (contents.filter (fun k => k ≠ ""))).foldl
                (fun acc b => acc + b.length) 0⟩) := rfl

/-- Counts of the deletion loop: every scheduled backup is processed,
each one counted once, as a success or as an error. -/
theorem deletionLoop_counts {σ : Type} (del : String → σ → σ × Option Nat) :
    ∀ (bs : List BackupWithDate) (s : σ),
      (deletionLoop del bs s).2.1 + (deletionLoop del bs s).2.2 = bs.length := by
  intro bs
  induction bs with
  | nil => intro s; rfl
  | cons b rest ih =>
    intro s
    have h := ih (del b.name s).1
    cases hres : (del b.name s).2 with
    | none =>
      simp only [deletionLoop, hres, List.length_cons]
      omega
    | some k =>
      simp only [deletionLoop, hres, List.length_cons]
      omega

/-! Claim theorems. -/

/-- C1, counterexample to the claim as stated: the lister returns the
backup db-2024-13-99 carrying an Invalid Date, and for cutoff
1705276800000 that backup lies in neither the toDelete nor the toKeep
set, so the pruner does not place every non-deleted backup in toKeep. -/
theorem c1_partition_counterexample :
    listBackupsWithDates "backups" ["backups/db-2024-13-99/"] =
      [⟨"db-2024-13-99", none⟩] ∧
    backupsToDelete 1705276800000
      (listBackupsWithDates "backups" ["backups/db-2024-13-99/"]) = [] ∧
    backupsToKeep 1705276800000
      (listBackupsWithDates "backups" ["backups/db-2024-13-99/"]) = [] := by
  refine ⟨by decide, by decide, by decide⟩

/-- C1 (amended): restricted to listed backups whose extracted date is
valid, the pruner partitions totally and disjointly by the cutoff, with
the strict less-than comparison on the delete side, and a backup dated
exactly at the cutoff instant is kept, not deleted. -/
theorem c1_partition_valid_dates (cutoff t : Int) (b : BackupWithDate)
    (bs : List BackupWithDate) (hb : b ∈ bs) (hd : b.date = some t) :
    (b ∈ backupsToDelete cutoff bs ↔ t < cutoff) ∧
    (b ∈ backupsToKeep cutoff bs ↔ cutoff ≤ t) ∧
    ¬ (b ∈ backupsToDelete cutoff bs ∧ b ∈ backupsToKeep cutoff bs) ∧
    (b ∈ backupsToDelete cutoff bs ∨ b ∈ backupsToKeep cutoff bs) ∧
    (t = cutoff → b ∈ backupsToKeep cutoff bs ∧ b ∉ backupsToDelete cutoff bs) := by
  have hdel : b ∈ backupsToDelete cutoff bs ↔ t < cutoff := by
    simp [backupsToDelete, List.mem_filter, hb, dateLt, hd]
  have hkeep : b ∈ backupsToKeep cutoff bs ↔ cutoff ≤ t := by
    simp [backupsToKeep, List.mem_filter, hb, dateGe, hd]
  refine ⟨hdel, hkeep, ?_, ?_, ?_⟩
  · rintro ⟨h1, h2⟩
    have u1 := hdel.mp h1
    have u2 := hkeep.mp h2
    omega
  · rcases lt_or_le t cutoff with h | h
    · exact Or.inl (hdel.mpr h)
    · exact Or.inr (hkeep.mpr h)
  · intro he
    refine ⟨hkeep.mpr (by omega), fun hc => ?_⟩
    have := hdel.mp hc
    omega

/-- Witness for the amended C1 at a concrete backup and cutoff. -/
theorem c1_partition_valid_dates_witness :
    ((⟨"db-a", some 5⟩ : BackupWithDate) ∈ backupsToDelete 10 [⟨"db-a", some 5⟩] ↔ (5 : Int) < 10) ∧
    ((⟨"db-a", some 5⟩ : BackupWithDate) ∈ backupsToKeep 10 [⟨"db-a", some 5⟩] ↔ (10 : Int) ≤ 5) ∧
    ¬ ((⟨"db-a", some 5⟩ : BackupWithDate) ∈ backupsToDelete 10 [⟨"db-a", some 5⟩] ∧
        (⟨"db-a", some 5⟩ : BackupWithDate) ∈ backupsToKeep 10 [⟨"db-a", some 5⟩]) ∧
    ((⟨"db-a", some 5⟩ : BackupWithDate) ∈ backupsToDelete 10 [⟨"db-a", some 5⟩] ∨
        (⟨"db-a", some 5⟩ : BackupWithDate) ∈ backupsToKeep 10 [⟨"db-a", some 5⟩]) ∧
    ((5 : Int) = 10 → (⟨"db-a", some 5⟩ : BackupWithDate) ∈ backupsToKeep 10 [⟨"db-a", some 5⟩] ∧
        (⟨"db-a", some 5⟩ : BackupWithDate) ∉ backupsToDelete 10 [⟨"db-a", some 5⟩]) :=
  c1_partition_valid_dates 10 5 ⟨"db-a", some 5⟩ [⟨"db-a", some 5⟩]
    (List.mem_singleton.mpr rfl) rfl

/-- C2: the full timestamp pattern is tried first and wins over the bare
date pattern, both interpreted as UTC; a name matching neither pattern is
excluded from the listing result entirely. -/
theorem c2_date_extraction :
    extractDateFromBackupName "mydb-2024-01-15-03-30-00" = some (some 1705289400000) ∧
    extractDateFromBackupName "mydb-2024-01-15" = some (some 1705276800000) ∧
    extractDateFromBackupName "mydb-backup" = none ∧
    listBackupsWithDates "backups"
        ["backups/mydb-2024-01-15-03-30-00/", "backups/mydb-2024-01-15/",
          "backups/mydb-backup/"] =
      [⟨"mydb-2024-01-15-03-30-00", some 1705289400000⟩,
        ⟨"mydb-2024-01-15", some 1705276800000⟩] := by
  refine ⟨by decide, by decide, by decide, by decide⟩

/-- C3, the code evaluated at the failing input: the listing path has no
trailing slash, so deleting db-2024-01-15 submits the key of the sibling
backup db-2024-01-15-03-30-00 for deletion, a key that does not lie
under backups/db-2024-01-15/. -/
theorem c3_sibling_key_submitted :
    deleteBackup ["backups/db-2024-01-15-03-30-00/dump.gz"] "backups" "db-2024-01-15" =
      ([["backups/db-2024-01-15-03-30-00/dump.gz"]],
        Except.ok ⟨"db-2024-01-15", 1⟩) ∧
    strHasPfx "backups/db-2024-01-15/" "backups/db-2024-01-15-03-30-00/dump.gz" = false := by
  refine ⟨rfl, by decide⟩

/-- C4: when every listed key is truthy, a successful deleteBackup
submits batches of at most 1000 keys and reports the total number of
keys across all batches; with 1500 listed objects it issues exactly two
batch-delete calls, of sizes 1000 and 500, and reports 1500 deleted
files. -/
theorem c4_batching (backupName : String) (contents : List String)
    (hne : ∀ k ∈ contents, k ≠ "") :
    (∀ batches res,
        deleteBackupRun backupName contents = (batches, Except.ok res) →
          (∀ b ∈ batches, b.length ≤ 1000) ∧
          res.deletedFiles = contents.length) ∧
    (contents.length = 1500 →
        deleteBackupRun backupName contents =
          (batchChunks contents, Except.ok ⟨backupName, 1500⟩) ∧
        (batchChunks contents).map List.length = [1000, 500]) := by
  have hfilter : contents.filter (fun k => k ≠ "") = contents := by
    rw [List.filter_eq_self]
    intro a ha
    simpa using hne a ha
  constructor
  · intro batches res h
    rw [deleteBackupRun_eq] at h
    by_cases h0 : contents.length = 0
    · rw [if_pos h0] at h
      simp at h
    · rw [if_neg h0, hfilter, if_neg h0] at h
      injection h with h1 h2
      injection h2 with h3
      subst h1
      subst h3
      constructor
      · intro b hb
        exact batchChunksGo_le contents.length contents b hb
      · exact batchChunks_total contents
  · intro h1500
    have h0 : ¬ contents.length = 0 := by omega
    constructor
    · rw [deleteBackupRun_eq, if_neg h0, hfilter, if_neg h0]
      have ht := batchChunks_total contents
      rw [ht, h1500]
    · exact batchChunks_sizes_1500 contents h1500

/-- Witness for C4 at a concrete listing of 1500 keys. -/
theorem c4_batching_witness :
    (∀ batches res,
        deleteBackupRun "db" (List.replicate 1500 "k") = (batches, Except.ok res) →
          (∀ b ∈ batches, b.length ≤ 1000) ∧
          res.deletedFiles = (List.replicate 1500 "k").length) ∧
    ((List.replicate 1500 "k").length = 1500 →
        deleteBackupRun "db" (List.replicate 1500 "k") =
          (batchChunks (List.replicate 1500 "k"), Except.ok ⟨"db", 1500⟩) ∧
        (batchChunks (List.replicate 1500 "k")).map List.length = [1000, 500]) :=
  c4_batching "db" (List.replicate 1500 "k")
    (fun k hk => by rw [List.eq_of_mem_replicate hk]; decide)

/-- C5: the deletion loop processes every scheduled backup, counting
each as a success or an error without aborting, the exit status is 0
exactly when no per-backup failure occurred, and in the concrete run
where deleting A fails and deleting B succeeds the report shows 1
deleted, 1 error, exit code 1, with the effect of deleting B still
applied to the final state. -/
theorem c5_error_isolation :
    (∀ (σ : Type) (del : String → σ → σ × Option Nat) (cutoff : Int)
        (backups : List BackupWithDate) (s0 : σ),
        (runPrune del false cutoff backups s0).deletedCount +
            (runPrune del false cutoff backups s0).errorCount =
          (backupsToDelete cutoff backups).length ∧
        (runPrune del false cutoff backups s0).deleteCalls =
          (backupsToDelete cutoff backups).map (fun b => b.name) ∧
        ((runPrune del false cutoff backups s0).exitCode = 0 ↔
          (runPrune del false cutoff backups s0).errorCount = 0)) ∧
    runPrune
        (fun n s => if n = "A" then (s, none)
          else (s.filter (fun k => k ≠ n), some 1))
        false 10 [⟨"A", some 0⟩, ⟨"B", some 1⟩] (["A", "B"] : List String) =
      ⟨1, ["A", "B"], [⟨"A", some 0⟩, ⟨"B", some 1⟩], 1, 1, ["A"]⟩ := by
  constructor
  · intro σ del cutoff backups s0
    by_cases hb : backups.length = 0
    · have hbe : backups = [] := List.length_eq_zero.mp hb
      subst hbe
      refine ⟨by simp [runPrune, backupsToDelete], by simp [runPrune, backupsToDelete], by simp [runPrune]⟩
    · by_cases hd : (backupsToDelete cutoff backups).length = 0
      · have hde : backupsToDelete cutoff backups = [] := List.length_eq_zero.mp hd
        refine ⟨?_, ?_, ?_⟩ <;> simp [runPrune, hb, hd, hde]
      · have hrun : runPrune del false cutoff backups s0 =
            ⟨if 0 < (deletionLoop del (backupsToDelete cutoff backups) s0).2.2 then 1 else 0,
              (backupsToDelete cutoff backups).map (fun b => b.name),
              backupsToDelete cutoff backups,
              (deletionLoop del (backupsToDelete cutoff backups) s0).2.1,
              (deletionLoop del (backupsToDelete cutoff backups) s0).2.2,
              (deletionLoop del (backupsToDelete cutoff backups) s0).1⟩ := by
          simp [runPrune, hb, hd]

        have hiff : ∀ e : Nat, ((if 0 < e then 1 else 0 : Nat) = 0 ↔ e = 0) := by
          intro e
          by_cases he : 0 < e
          · rw [if_pos he]
            omega
          · rw [if_neg he]
            omega
        rw [hrun]
        exact ⟨deletionLoop_counts del (backupsToDelete cutoff backups) s0, rfl,
          hiff (deletionLoop del (backupsToDelete cutoff backups) s0).2.2⟩
  · decide

/-- C6: deleteBackup fails with the backup-not-found error exactly when
the listing of the path yields zero objects, and in that case no
batch-delete call is issued. -/
theorem c6_not_found (backupName : String) (contents : List String) :
    ((deleteBackupRun backupName contents).2 =
        Except.error DeleteError.noBackupFound ↔ contents = []) ∧
    (contents = [] → (deleteBackupRun backupName contents).1 = []) := by
  constructor
  · constructor
    · intro h
      by_contra hne
      have h0 : ¬ contents.length = 0 := by
        intro hz
        exact hne (List.length_eq_zero.mp hz)
      rw [deleteBackupRun_eq] at h
      rw [if_neg h0] at h
      by_cases h1 : (contents.filter (fun k => k ≠ "")).length = 0
      · rw [if_pos h1] at h
        simp at h
      · rw [if_neg h1] at h
        simp at h
    · intro h
      subst h
      rfl
  · intro h
    subst h
    rfl

/-- Witness for C6 at the empty listing: re-deleting an already fully
deleted path errors out and issues no delete call. -/
theorem c6_not_found_witness :
    ((deleteBackupRun "db" ([] : List String)).2 =
        Except.error DeleteError.noBackupFound ↔ ([] : List String) = []) ∧
    (([] : List String) = [] → (deleteBackupRun "db" ([] : List String)).1 = []) :=
  c6_not_found "db" []

/-- C7: an explicit days option is used as given; a truthy environment
value parsing to a positive integer is used; a truthy environment value
that is non-numeric or not positive warns and falls back to the default
14; an absent value silently defaults to 14. -/
theorem c7_retention_days :
    (∀ (d : Int) (env : Option String), getPruneDays (some d) env = (d, false)) ∧
    (∀ (e : String) (p : Int), e ≠ "" → parseIntJS e = some p → 0 < p →
        getPruneDays none (some e) = (p, false)) ∧
    (∀ (e : String), e ≠ "" →
        (parseIntJS e = none ∨ ∃ p, parseIntJS e = some p ∧ p ≤ 0) →
        getPruneDays none (some e) = (14, true)) ∧
    getPruneDays none (some "abc") = (14, true) ∧
    getPruneDays none (some "0") = (14, true) ∧
    getPruneDays none none = (14, false) := by
  refine ⟨fun d env => rfl, ?_, ?_, by decide, by decide, rfl⟩
  · intro e p he hp hp0
    simp [getPruneDays, he, hp, hp0]
  · intro e he hcase
    rcases hcase with hnone | ⟨p, hp, hple⟩
    · simp [getPruneDays, he, hnone, DEFAULT_PRUNE_DAYS]
    · have : ¬ 0 < p := by omega
      simp [getPruneDays, he, hp, this, DEFAULT_PRUNE_DAYS]

/-- Witness for C7 at the value 30. -/
theorem c7_retention_days_witness :
    getPruneDays none (some "30") = (30, false) :=
  c7_retention_days.2.1 "30" 30 (by decide) (by decide) (by decide)

/-- C8: with the dry-run flag set and a non-empty toDelete set, the run
reports the toDelete set, invokes deleteBackup zero times, leaves the
storage state untouched, and exits with status 0. -/
theorem c8_dry_run {σ : Type} (del : String → σ → σ × Option Nat) (cutoff : Int)
    (backups : List BackupWithDate) (s0 : σ)
    (h : backupsToDelete cutoff backups ≠ []) :
    runPrune del true cutoff backups s0 =
      ⟨0, [], backupsToDelete cutoff backups, 0, 0, s0⟩ := by
  have hb : ¬ backups.length = 0 := by
    intro h0
    have hbe : backups = [] := List.length_eq_zero.mp h0
    subst hbe
    exact h rfl
  have hd : ¬ (backupsToDelete cutoff backups).length = 0 := by
    intro h0
    exact h (List.length_eq_zero.mp h0)
  simp [runPrune, hb, hd]

/-- Witness for C8 at a concrete one-element toDelete set. -/
theorem c8_dry_run_witness :
    runPrune (fun _ (s : Unit) => (s, some 1)) true 10 [⟨"A", some 0⟩] () =
      ⟨0, [], [⟨"A", some 0⟩], 0, 0, ()⟩ :=
  c8_dry_run (fun _ (s : Unit) => (s, some 1)) 10 [⟨"A", some 0⟩] () (by decide)

/-- C9, the code evaluated at the failing input: loadConfig takes no
parameters, so the bucket and path overrides runPrune passes are
dropped and the environment values are used. -/
theorem c9_overrides_dropped :
    (∀ (eb : String) (ep : Option String) (o : PruneOverrides),
        configUsedByPrune eb ep o = loadConfigS3 eb ep) ∧
    (configUsedByPrune "env-bucket" (some "env-path")
        ⟨some "cli-bucket", some "cli-path"⟩).bucket = "env-bucket" ∧
    ¬ (configUsedByPrune "env-bucket" (some "env-path")
        ⟨some "cli-bucket", some "cli-path"⟩).bucket = "cli-bucket" := by
  refine ⟨fun eb ep o => rfl, rfl, by decide⟩

/-- C10: a name whose digits match the bare date pattern without being a
valid calendar date is included in the listing with an Invalid Date, and
such an entry satisfies neither the delete-side nor the keep-side
comparison for any cutoff. -/
theorem c10_invalid_date_shape :
    extractDateFromBackupName "db-2024-13-99" = some none ∧
    listBackupsWithDates "backups" ["backups/db-2024-13-99/"] =
      [⟨"db-2024-13-99", none⟩] ∧
    ∀ cutoff : Int,
      backupsToDelete cutoff [⟨"db-2024-13-99", none⟩] = [] ∧
      backupsToKeep cutoff [⟨"db-2024-13-99", none⟩] = [] := by
  refine ⟨by decide, by decide, fun cutoff => ⟨?_, ?_⟩⟩
  · simp [backupsToDelete, List.filter, dateLt]
  · simp [backupsToKeep, List.filter, dateGe]

end MBS3
